import Mathlib

/-!
Shallow embedding of the core of the zbus D-Bus library excerpt:

* the primary-header codec (`src/zbus/src/message/header.rs`),
* the raw framed connection (`src/zbus/src/connection/raw/connection.rs`),
* the socket write half (`src/zbus/src/connection/socket/mod.rs`),
* the launchd transport resolver (`src/zbus/src/address/transport/launchd.rs`).

Machine integers (`u8`, `u32`, `usize`) are modelled as `Nat`; all the
quantities handled here are bounded well below any overflow point (the
largest arithmetic is `16 + fields_len + 7 + body_len` with both
`u32` summands `< 2^32`, far below `usize` overflow), so no explicit
`% 2^w` is needed.  Byte buffers are `List Nat`, fallible code returns
`Except` or a dedicated result type, and the asynchronous socket is
replaced by an explicit script of `poll_recvmsg` / `poll_sendmsg`
results consumed one call at a time.
-/

deriving instance DecidableEq for Except

namespace Zbus

/-- Host byte order: the meaning of `byteorder::NativeEndian`, which depends
on the target the crate is compiled for. -/
inductive Endian where
  | little
  | big
deriving DecidableEq, Repr

/-- `EndianSig` from `message/header.rs`: D-Bus code for endianness,
`b'B' = 66` for big and `b'l' = 108` for little. -/
inductive EndianSig where
  | big
  | little
deriving DecidableEq, Repr

/-- Message `Type` from `message/header.rs` (named `MsgType` here because
`Type` is reserved in Lean). -/
inductive MsgType where
  | invalid
  | methodCall
  | methodReturn
  | error
  | signal
deriving DecidableEq, Repr

/-- The error kinds of `zbus::Error` that the embedded code can produce.
`variant` stands for any error coming out of the `zvariant` (de)serializer
(invalid enum discriminant, invalid flag bits, short buffer, ...). -/
inductive IOErr where
  | unexpectedEof
deriving DecidableEq, Repr

inductive Error where
  | incorrectEndian
  | excessData
  | invalidField
  | missingField
  | variant
  | inputOutput (kind : IOErr)
  | address (msg : String)
deriving DecidableEq, Repr

/-- `PRIMARY_HEADER_SIZE` from `message/header.rs`. -/
def PRIMARY_HEADER_SIZE : Nat := 12

/-- `MIN_MESSAGE_SIZE` from `message/header.rs`. -/
def MIN_MESSAGE_SIZE : Nat := PRIMARY_HEADER_SIZE + 4

/-- `MAX_MESSAGE_SIZE` from `message/header.rs`: 128 MiB. -/
def MAX_MESSAGE_SIZE : Nat := 128 * 1024 * 1024

/-- Modelled from the spec: `padding_for_8_bytes` lives in `zbus/src/utils.rs`,
which is not part of the excerpt; §4.A gives `pad8(n) = (8 − n mod 8) mod 8`. -/
def padding_for_8_bytes (n : Nat) : Nat := (8 - n % 8) % 8

/-- `PrimaryHeader` from `message/header.rs`.  `serial_num` is a
`OnceCell<u32>`, i.e. an optionally-set immutable cell; flags are kept as the
raw `u8` bit set (valid values are subsets of `0x7`). -/
structure PrimaryHeader where
  endian_sig : EndianSig
  msg_type : MsgType
  flags : Nat
  protocol_version : Nat
  body_len : Nat
  serial_num : Option Nat
deriving DecidableEq, Repr

/-- Deserialization of the `EndianSig` byte (`serde_repr` on the `EndianSig`
enum): only `b'B' = 66` and `b'l' = 108` are accepted. -/
def decodeEndianSig (b : Nat) : Option EndianSig :=
  if b = 66 then some .big else if b = 108 then some .little else none

/-- Deserialization of the message-type byte (`serde_repr` on `Type`):
discriminants 0..4; any other byte is a deserialization error. -/
def decodeType (b : Nat) : Option MsgType :=
  match b with
  | 0 => some .invalid
  | 1 => some .methodCall
  | 2 => some .methodReturn
  | 3 => some .error
  | 4 => some .signal
  | _ => none

/-- Deserialization of the flags byte (`enumflags2`'s `BitFlags<Flags>`):
valid iff no bit outside `NoReplyExpected | NoAutoStart |
AllowInteractiveAuth = 0x7` is set, i.e. iff the byte is `< 8`. -/
def decodeFlags (b : Nat) : Option Nat :=
  if b < 8 then some b else none

/-- Value of the `u32` at offset `off` of `buf`, decoded in byte order `e`. -/
def u32At (e : Endian) (buf : List Nat) (off : Nat) : Nat :=
  match e with
  | .little =>
      buf.getD off 0 + 256 * buf.getD (off + 1) 0 +
        65536 * buf.getD (off + 2) 0 + 16777216 * buf.getD (off + 3) 0
  | .big =>
      16777216 * buf.getD off 0 + 65536 * buf.getD (off + 1) 0 +
        256 * buf.getD (off + 2) 0 + buf.getD (off + 3) 0

/-- `PrimaryHeader::read` from `message/header.rs`.  It builds an
`EncodingContext::<byteorder::NativeEndian>` — the host byte order, passed
here as `host` — and deserializes the 12-byte fixed header
(`y y y y u u` at offsets 0,1,2,3,4,8) followed by the `u32` `fields_len`
at offset 12.  Both `u32` reads therefore use the HOST byte order,
whatever `endian_sig` was decoded at offset 0.  Any `zvariant`
deserialization failure (buffer shorter than 16 bytes, invalid endian
byte, invalid type discriminant, invalid flag bits) is `Error.variant`. -/
def PrimaryHeader.read (host : Endian) (buf : List Nat) :
    Except Error (PrimaryHeader × Nat) :=
  if buf.length < MIN_MESSAGE_SIZE then .error .variant
  else
    match decodeEndianSig (buf.getD 0 0), decodeType (buf.getD 1 0),
        decodeFlags (buf.getD 2 0) with
    | some e, some t, some f =>
        .ok (⟨e, t, f, buf.getD 3 0, u32At host buf 4, some (u32At host buf 8)⟩,
          u32At host buf 12)
    | _, _, _ => .error .variant

end Zbus

namespace Zbus

/-! ## Header fields and typed accessors (`message/header.rs`) -/

/-- `FieldCode` from `message/fields.rs` (declared there, used by the
`get_field!` macro in `message/header.rs`).  `invalid` is wire code 0. -/
inductive FieldCode where
  | invalid
  | path
  | interface
  | member
  | errorName
  | replySerial
  | destination
  | sender
  | signature
  | unixFDs
deriving DecidableEq, Repr

/-- `Field` from `message/fields.rs`: one header field with its typed
payload.  The zvariant payload types (`ObjectPath`, `InterfaceName`,
`MemberName`, `ErrorName`, `BusName`, `UniqueName`, `Signature`) are
opaque strings here; `ReplySerial` and `UnixFDs` carry a `u32`. -/
inductive Field where
  | path (v : String)
  | interface (v : String)
  | member (v : String)
  | errorName (v : String)
  | replySerial (v : Nat)
  | destination (v : String)
  | sender (v : String)
  | signature (v : String)
  | unixFDs (v : Nat)
deriving DecidableEq, Repr

/-- The wire code a `Field` variant carries (`Field::code`). -/
def Field.code : Field → FieldCode
  | .path _ => .path
  | .interface _ => .interface
  | .member _ => .member
  | .errorName _ => .errorName
  | .replySerial _ => .replySerial
  | .destination _ => .destination
  | .sender _ => .sender
  | .signature _ => .signature
  | .unixFDs _ => .unixFDs

/-- Modelled from the spec: `Fields::get_field` lives in
`message/fields.rs`, which is not part of the excerpt.  §3 describes the
header fields as an array of `(field_code, variant)` entries whose codes
are unique within a message; looking a code up returns the entry carrying
that code — the first match. -/
def get_field (fields : List Field) (code : FieldCode) : Option Field :=
  fields.find? fun f => f.code = code

/-- `Header` from `message/header.rs`: the primary header plus the
variable fields. -/
structure Header where
  primary : PrimaryHeader
  fields : List Field
deriving DecidableEq, Repr

/-- `Header::path`, expanding the `get_field!` macro
(message/header.rs:274-292, 336-338). -/
def Header.path (h : Header) : Except Error (Option String) :=
  match get_field h.fields .path with
  | some (.path v) => .ok (some v)
  | some _ => .error .invalidField
  | none => .ok none

/-- `Header::interface` (message/header.rs:341-343). -/
def Header.interface (h : Header) : Except Error (Option String) :=
  match get_field h.fields .interface with
  | some (.interface v) => .ok (some v)
  | some _ => .error .invalidField
  | none => .ok none

/-- `Header::member` (message/header.rs:346-348). -/
def Header.member (h : Header) : Except Error (Option String) :=
  match get_field h.fields .member with
  | some (.member v) => .ok (some v)
  | some _ => .error .invalidField
  | none => .ok none

/-- `Header::error_name` (message/header.rs:351-353). -/
def Header.error_name (h : Header) : Except Error (Option String) :=
  match get_field h.fields .errorName with
  | some (.errorName v) => .ok (some v)
  | some _ => .error .invalidField
  | none => .ok none

/-- `Header::reply_serial`, expanding `get_field_u32!`
(message/header.rs:288-292, 356-358). -/
def Header.reply_serial (h : Header) : Except Error (Option Nat) :=
  match get_field h.fields .replySerial with
  | some (.replySerial v) => .ok (some v)
  | some _ => .error .invalidField
  | none => .ok none

/-- `Header::destination` (message/header.rs:361-363). -/
def Header.destination (h : Header) : Except Error (Option String) :=
  match get_field h.fields .destination with
  | some (.destination v) => .ok (some v)
  | some _ => .error .invalidField
  | none => .ok none

/-- `Header::sender` (message/header.rs:366-368). -/
def Header.sender (h : Header) : Except Error (Option String) :=
  match get_field h.fields .sender with
  | some (.sender v) => .ok (some v)
  | some _ => .error .invalidField
  | none => .ok none

/-- `Header::signature` (message/header.rs:371-373). -/
def Header.signature (h : Header) : Except Error (Option String) :=
  match get_field h.fields .signature with
  | some (.signature v) => .ok (some v)
  | some _ => .error .invalidField
  | none => .ok none

/-- `Header::unix_fds` (message/header.rs:376-378). -/
def Header.unix_fds (h : Header) : Except Error (Option Nat) :=
  match get_field h.fields .unixFDs with
  | some (.unixFDs v) => .ok (some v)
  | some _ => .error .invalidField
  | none => .ok none

/-! ## Raw framed connection, receive side (`connection/raw/connection.rs`) -/

/-- Result of one `poll_recvmsg` call that returned `Ready(Ok(..))`: the
bytes written into the destination slice and the ancillary file descriptors.
A chunk with empty `data` is a 0-byte read, i.e. end-of-stream. -/
structure Chunk where
  data : List Nat
  fds : List Nat
deriving DecidableEq, Repr

/-- The `InBound` half of the raw `Connection`. -/
structure InBound where
  buffer : List Nat
  fds : List Nat
  pos : Nat
  prev_seq : Nat
deriving DecidableEq, Repr

/-- The `InBound` state made by `Connection::new(socket, raw_in_buffer)`:
`pos = raw_in_buffer.len()`, `prev_seq = 0`. -/
def InBound.new (raw_in_buffer : List Nat) : InBound :=
  ⟨raw_in_buffer, [], raw_in_buffer.length, 0⟩

/-- A received `Message` as assembled by the raw connection: the serialized
bytes, the accumulated file descriptors and the receive sequence number. -/
structure Message where
  bytes : List Nat
  fds : List Nat
  seq : Nat
deriving DecidableEq, Repr

/-- `Vec::resize(n, 0)`: truncate or zero-extend to length `n`. -/
def resize (l : List Nat) (n : Nat) : List Nat :=
  if n ≤ l.length then l.take n else l ++ List.replicate (n - l.length) 0

/-- Effect of `recvmsg` writing `data` into `buf[pos..]`: at most
`buf.length - pos` bytes fit; the buffer keeps its length. -/
def writeAt (buf : List Nat) (pos : Nat) (data : List Nat) : List Nat :=
  buf.take pos ++ data.take (buf.length - pos) ++
    buf.drop (pos + min data.length (buf.length - pos))

/-- Number of bytes such a call reports as read. -/
def recvLen (buf : List Nat) (pos : Nat) (data : List Nat) : Nat :=
  min data.length (buf.length - pos)

/-- Outcome of `try_receive_message`: a ready message, an error, or
`Poll::Pending`, in every case together with the post-call `InBound` state
(the `inbound` mutex keeps it for the next call, also after an error) and
the unconsumed part of the socket script (a pending also models the socket
script running out of ready results). -/
inductive Recv where
  | ok (m : Message) (s : InBound) (rest : List Chunk)
  | err (e : Error) (s : InBound) (rest : List Chunk)
  | pending (s : InBound) (rest : List Chunk)
deriving DecidableEq, Repr

/-- Modelled from the spec: the required header fields per message type,
from the §3 table — Path for MethodCall and Signal, Interface for Signal
(for MethodCall it is only conventional), Member for MethodCall and
Signal, ErrorName for Error, ReplySerial for MethodReturn and Error;
nothing is required of Invalid messages (§3: unknown types are "never
rejected at the framing layer"). -/
def requiredFieldCodes : MsgType → List FieldCode
  | .methodCall => [.path, .member]
  | .signal => [.path, .interface, .member]
  | .methodReturn => [.replySerial]
  | .error => [.errorName, .replySerial]
  | .invalid => []

/-- Modelled from the spec: decoding the header-field array of §3
("length-prefixed array of `(field_code:u8, variant)` entries").  The
byte encoding of each entry's variant value belongs to the external value
codec (§1, §6), which this spec does not fix, so only the one
byte-determined case is decoded: `fields_len = 0` is the empty array; for
a non-empty array the model reports a deserializer error (no claim
depends on a non-empty field array decoding successfully). -/
def parseHeaderFields (fields_len : Nat) : Except Error (List Field) :=
  if fields_len = 0 then .ok [] else .error .variant

/-- Modelled from the spec: `Message::from_raw_parts` lives in
`zbus/src/message/mod.rs`, which is not part of the excerpt.  §4.C decode:
"verify `total_len ≤ MAX_MESSAGE_SIZE`, parse header fields, validate
required fields per message type, validate `UnixFDs` equals `fds.len()`
when present", in that order; a missing required field is the
`MissingField` kind of §7, a wrong `UnixFDs` count the `InvalidField`
kind.  The signature parse of §4.C is the external value codec's (§6) and
cannot fail at this layer.  Crucially for the receive sequence, this
function is FALLIBLE, and `try_receive_message` calls it only after
bumping `prev_seq` (connection.rs:219-231). -/
def Message.from_raw_parts (host : Endian) (bytes : List Nat)
    (fds : List Nat) (seq : Nat) : Except Error Message :=
  if bytes.length > MAX_MESSAGE_SIZE then .error .excessData
  else
    match PrimaryHeader.read host bytes with
    | .error e => .error e
    | .ok (primary_header, fields_len) =>
      match parseHeaderFields fields_len with
      | .error e => .error e
      | .ok fields =>
        if (requiredFieldCodes primary_header.msg_type).all
            (fun c => (get_field fields c).isSome) then
          match get_field fields .unixFDs with
          | some (.unixFDs n) =>
              if n = fds.length then .ok ⟨bytes, fds, seq⟩
              else .error .invalidField
          | some _ => .error .invalidField
          | none => .ok ⟨bytes, fds, seq⟩
        else .error .missingField

/-- The first loop of `try_receive_message` (connection.rs:157-183): read
until `pos ≥ MIN_MESSAGE_SIZE`, appending any received fds; a 0-byte read
returns the `UnexpectedEof` I/O error — with the state as mutated up to
that point (fds already extended) left in the mutex.  `Except.error`
carries an early return out of the whole function. -/
def recvPreamble : List Chunk → InBound → Except Recv (InBound × List Chunk)
  | chunks, s =>
    if _h : s.pos < MIN_MESSAGE_SIZE then
      match chunks with
      | [] => .error (.pending s [])
      | c :: rest =>
          let len := recvLen s.buffer s.pos c.data
          let s' : InBound :=
            ⟨writeAt s.buffer s.pos c.data, s.fds ++ c.fds, s.pos + len,
              s.prev_seq⟩
          if len = 0 then
            .error (.err (.inputOutput .unexpectedEof) s' rest)
          else recvPreamble rest s'
    else .ok (s, chunks)

/-- The second loop of `try_receive_message` (connection.rs:200-217): read
until the buffer is full.  Note there is no 0-byte-read check in this loop
in the source: a 0-byte read just goes around again. -/
def recvRest : List Chunk → InBound → Except Recv (InBound × List Chunk)
  | chunks, s =>
    if _h : s.buffer.length > s.pos then
      match chunks with
      | [] => .error (.pending s [])
      | c :: rest =>
          let len := recvLen s.buffer s.pos c.data
          let s' : InBound :=
            ⟨writeAt s.buffer s.pos c.data, s.fds ++ c.fds, s.pos + len,
              s.prev_seq⟩
          recvRest rest s'
    else .ok (s, chunks)

/-- `Connection::try_receive_message` (connection.rs:146-232), with the
socket's successive `poll_recvmsg` results supplied as `chunks`.  Note
the tail (connection.rs:219-231): once the buffer is full the code sets
`pos = 0`, takes the buffer and fds, assigns `seq = prev_seq + 1` and
stores it back BEFORE calling the fallible `Message::from_raw_parts`, so
a failed parse has already consumed its sequence number; the error result
carries that state. -/
def tryReceiveMessage (host : Endian) (chunks : List Chunk) (s₀ : InBound) :
    Recv :=
  let s₁ := if s₀.pos < MIN_MESSAGE_SIZE then
      { s₀ with buffer := resize s₀.buffer MIN_MESSAGE_SIZE } else s₀
  match recvPreamble chunks s₁ with
  | .error r => r
  | .ok (s₂, chunks) =>
    match PrimaryHeader.read host s₂.buffer with
    | .error e => .err e s₂ chunks
    | .ok (primary_header, fields_len) =>
      let header_len := MIN_MESSAGE_SIZE + fields_len
      let body_padding := padding_for_8_bytes header_len
      let body_len := primary_header.body_len
      let total_len := header_len + body_padding + body_len
      if total_len > MAX_MESSAGE_SIZE then .err .excessData s₂ chunks
      else
        let s₃ := { s₂ with buffer := resize s₂.buffer total_len }
        match recvRest chunks s₃ with
        | .error r => r
        | .ok (s₄, rest) =>
          let seq := s₄.prev_seq + 1
          let s₅ : InBound := ⟨[], [], 0, seq⟩
          match Message.from_raw_parts host s₄.buffer s₄.fds seq with
          | .error e => .err e s₅ rest
          | .ok m => .ok m s₅ rest

/-- Drive `try_receive_message` once per per-message socket script in
`scripts`, threading the inbound state; `none` as soon as one receive does
not come back `Ready(Ok(..))`. -/
def runReceives (host : Endian) :
    List (List Chunk) → InBound → Option (List Message × InBound)
  | [], s => some ([], s)
  | sc :: rest, s =>
    match tryReceiveMessage host sc s with
    | .ok m s' _ => (runReceives host rest s').map fun p => (m :: p.1, p.2)
    | _ => none

/-! ## Raw framed connection, send side (`connection/raw/connection.rs` and
`connection/socket/mod.rs`) -/

/-- An outbound message as the write path sees it: `Message::as_bytes()` /
`Message::data()` and its file descriptors. -/
structure OutMsg where
  bytes : List Nat
  fds : List Nat
deriving DecidableEq, Repr

/-- The `OutBound` half of the raw `Connection`: the intra-message position
cursor and the queue of messages. -/
structure OutBound where
  pos : Nat
  msgs : List OutMsg
deriving DecidableEq, Repr

/-- `MAX_OUT_QUEUE_LEN` (connection.rs:275). -/
def MAX_OUT_QUEUE_LEN : Nat := 4

/-- `Connection::enqueue_message` (connection.rs:130-136): push the message
at the back of the outbound queue. -/
def enqueueMessage (ob : OutBound) (m : OutMsg) : OutBound :=
  { ob with msgs := ob.msgs ++ [m] }

/-- `Connection::await_out_queue_ready` (connection.rs:115-124): `none`
when the queue is below `MAX_OUT_QUEUE_LEN`, otherwise a listener on the
`out_queue_ready` event (the listener itself is opaque here). -/
def awaitOutQueueReady (ob : OutBound) : Option Unit :=
  if ob.msgs.length < MAX_OUT_QUEUE_LEN then none else some ()

/-- Result of one `poll_sendmsg` call in the socket script: `Pending`,
`Ready(Ok(n))` with `n` bytes accepted, or `Ready(Err(..))`. -/
inductive SendRes where
  | pend
  | ready (n : Nat)
  | fail (e : IOErr)
deriving DecidableEq, Repr

/-- Observable events of a flush, in order: every `poll_sendmsg` call with
the queue index of the message being written, the position cursor at the
time of the call and the fd list argument; and every pop of a fully written
message with the cursor value and the message length at the time of the
pop. -/
inductive FlushEv where
  | sent (idx : Nat) (posBefore : Nat) (fds : List Nat)
  | popped (idx : Nat) (posAtPop : Nat) (msgLen : Nat)
deriving DecidableEq, Repr

/-- Final outcome of `try_flush`: `Poll::Pending` (socket not ready, state
kept under the mutex), `Poll::Ready(Err(..))`, or `Poll::Ready(Ok(()))`;
`notified` records whether `out_queue_ready.notify` ran, which the source
does exactly on the `Ready(Ok(()))` path. -/
inductive FlushRes where
  | pending (ob : OutBound)
  | fail (e : IOErr) (ob : OutBound)
  | flushed (ob : OutBound) (notified : Bool)
deriving DecidableEq, Repr

/-- The loop of `Connection::try_flush` (connection.rs:87-108), with the
socket's successive `poll_sendmsg` results supplied as `script` and `idx`
numbering the head message (0 for the head of the queue `try_flush` was
entered with).  An exhausted script stands for a socket with no further
ready result, i.e. the next `poll_sendmsg` is `Pending`. -/
def tryFlushAux (script : List SendRes) (idx : Nat) (pos : Nat) :
    List OutMsg → List FlushEv × FlushRes
  | [] => ([], .flushed ⟨pos, []⟩ true)
  | m :: rest =>
    if _h : m.bytes.length ≤ pos then
      -- `data.is_empty()`: reset the cursor, pop, move to the next message
      let r := tryFlushAux script (idx + 1) 0 rest
      (.popped idx pos m.bytes.length :: r.1, r.2)
    else
      let fds := if pos = 0 then m.fds else []
      match script with
      | [] => ([], .pending ⟨pos, m :: rest⟩)
      | res :: srest =>
        match res with
        | .pend => ([.sent idx pos fds], .pending ⟨pos, m :: rest⟩)
        | .fail e => ([.sent idx pos fds], .fail e ⟨pos, m :: rest⟩)
        | .ready n =>
          -- `sendmsg` never reports more than the remaining bytes it was given
          let acc := min n (m.bytes.length - pos)
          let r := tryFlushAux srest idx (pos + acc) (m :: rest)
          (.sent idx pos fds :: r.1, r.2)
  termination_by msgs => (script.length, msgs.length)

/-- `Connection::try_flush` (connection.rs:84-112). -/
def tryFlush (script : List SendRes) (ob : OutBound) :
    List FlushEv × FlushRes :=
  tryFlushAux script 0 ob.pos ob.msgs

/-- The loop of `WriteHalf::send_message` (socket/mod.rs:204-228): a local
cursor starting at 0; each `sendmsg` call is recorded as
`(posBefore, fds argument)`.  The result is the trace together with `none`
on an exhausted script (the `.await` suspends) or the error, if any. -/
def sendMessageAux (script : List SendRes) (m : OutMsg) (pos : Nat) :
    List (Nat × List Nat) × Option (Except IOErr Unit) :=
  if _h : pos < m.bytes.length then
    let fds := if pos = 0 then m.fds else []
    match script with
    | [] => ([], none)
    | res :: srest =>
      match res with
      | .pend => sendMessageAux srest m pos
      | .fail e => ([(pos, fds)], some (.error e))
      | .ready n =>
        let acc := min n (m.bytes.length - pos)
        let r := sendMessageAux srest m (pos + acc)
        ((pos, fds) :: r.1, r.2)
  else ([], some (.ok ()))
  termination_by script.length

/-- `WriteHalf::send_message` (socket/mod.rs:204-228). -/
def sendMessage (script : List SendRes) (m : OutMsg) :
    List (Nat × List Nat) × Option (Except IOErr Unit) :=
  sendMessageAux script m 0

/-! ## Launchd transport resolution (`address/transport/launchd.rs`) -/

/-- `UnixPath` from `address/transport/unix.rs`. -/
inductive UnixPath where
  | file (p : String)
  | abstract (p : String)
  | dir (p : String)
  | tmpDir (p : String)
deriving DecidableEq, Repr

/-- `Unix` from `address/transport/unix.rs`. -/
structure Unix where
  path : UnixPath
deriving DecidableEq, Repr

/-- The transports a resolved launchd address can produce. -/
inductive Transport where
  | unix (u : Unix)
deriving DecidableEq, Repr

/-- Modelled from the spec: the output of `run("launchctl", ["getenv", env])`
(the `run` helper lives in `zbus/src/process.rs`, which is not part of the
excerpt): the process exit status — its `success()` flag and its `Display`
rendering — and its standard output.  `stdout` is kept as the UTF-8 decoded
string; a non-UTF-8 stdout takes the separate
`Unable to parse launchctl output as UTF-8` error path in the source,
which is outside this model. -/
structure CmdOutput where
  success : Bool
  statusDisplay : String
  stdout : String
deriving DecidableEq, Repr

/-- Rust's `str::trim`: remove leading AND trailing whitespace.  (Rust uses
the Unicode `White_Space` property, Lean's `Char.isWhitespace` the ASCII
subset `' '`, `'\t'`, `'\r'`, `'\n'`; they agree on every input considered
here.) -/
def rustTrim (s : String) : String :=
  ⟨(((s.data.dropWhile Char.isWhitespace).reverse).dropWhile
      Char.isWhitespace).reverse⟩

/-- Trailing-only trimming, the operation the SPEC's words describe
("trim trailing whitespace from stdout"); to be compared with `rustTrim`,
the operation the source performs. -/
def specTrimEnd (s : String) : String :=
  ⟨((s.data.reverse).dropWhile Char.isWhitespace).reverse⟩

/-- `Launchd::bus_address` (launchd.rs:25-44), given the result of the
`launchctl getenv <env>` invocation: a non-success exit status is an
`Address` error whose message is the concatenation of
`"launchctl terminated with code: "` and the status display; otherwise the
stdout is trimmed with `str::trim` — which removes BOTH leading and
trailing whitespace — and wrapped as a Unix `File` transport. -/
def busAddress (output : CmdOutput) : Except Error Transport :=
  if output.success = false then
    .error (.address ("launchctl terminated with code: " ++
      output.statusDisplay))
  else
    .ok (.unix ⟨.file (rustTrim output.stdout)⟩)

/-- A fully explicit 16-byte buffer, byte by byte. -/
def mkBuf16 (b0 b1 b2 b3 b4 b5 b6 b7 b8 b9 b10 b11 b12 b13 b14 b15 : Nat) :
    List Nat :=
  [b0, b1, b2, b3, b4, b5, b6, b7, b8, b9, b10, b11, b12, b13, b14, b15]

/-- Cursor positions of the `sendmsg` calls made for the message at queue
index `i`, in call order. -/
def sentPos (tr : List FlushEv) (i : Nat) : List Nat :=
  tr.filterMap fun ev =>
    match ev with
    | .sent i' p _ => if i' = i then some p else none
    | _ => none

/-! ## Helper lemmas -/

/-- Writing received bytes into `buf[pos..]` never changes the buffer's
length. -/
theorem length_writeAt (buf : List Nat) (pos : Nat) (data : List Nat) :
    (writeAt buf pos data).length = buf.length := by
  simp only [writeAt, List.length_append, List.length_take, List.length_drop]
  omega

/-- `Vec::resize(n, 0)` produces a vector of length `n`. -/
theorem length_resize (l : List Nat) (n : Nat) :
    (resize l n).length = n := by
  simp only [resize]
  split
  · simp only [List.length_take]
    omega
  · simp only [List.length_append, List.length_replicate]
    omega

/-- Writing an empty slice is a no-op. -/
theorem writeAt_nil (buf : List Nat) (pos : Nat) :
    writeAt buf pos [] = buf := by
  simp [writeAt]

/-- Early returns of the preamble loop are `pending` or the EOF error,
and in either case `prev_seq` is the entry one. -/
theorem recvPreamble_error (chunks : List Chunk) (s : InBound) (r : Recv)
    (h : recvPreamble chunks s = .error r) :
    (∃ s' rest, r = .pending s' rest ∧ s'.prev_seq = s.prev_seq) ∨
      (∃ s' rest, r = .err (.inputOutput .unexpectedEof) s' rest ∧
        s'.prev_seq = s.prev_seq) := by
  induction chunks generalizing s with
  | nil =>
    simp only [recvPreamble] at h
    split at h
    · exact .inl ⟨s, [], by simpa using h.symm, rfl⟩
    · simp at h
  | cons c rest ih =>
    simp only [recvPreamble] at h
    split at h
    · split at h
      · simp only [Except.error.injEq] at h
        exact .inr ⟨_, rest, h.symm, rfl⟩
      · rcases ih _ h with ⟨s2, r2, hr, hs⟩ | ⟨s2, r2, hr, hs⟩
        · exact .inl ⟨s2, r2, hr, hs⟩
        · exact .inr ⟨s2, r2, hr, hs⟩
    · simp at h

/-- The preamble loop does not touch `prev_seq`. -/
theorem recvPreamble_ok_prev_seq (chunks : List Chunk) (s s' : InBound)
    (rest : List Chunk) (h : recvPreamble chunks s = .ok (s', rest)) :
    s'.prev_seq = s.prev_seq := by
  induction chunks generalizing s with
  | nil =>
    simp only [recvPreamble] at h
    split at h
    · simp at h
    · simp at h
      simp [h.1]
  | cons c cs ih =>
    simp only [recvPreamble] at h
    split at h
    · split at h
      · simp at h
      · have := ih _ h
        simpa using this
    · simp at h
      simp [h.1]

/-- Early returns of the body loop are always `pending` (there is no EOF
check in that loop). -/
theorem recvRest_error (chunks : List Chunk) (s : InBound) (r : Recv)
    (h : recvRest chunks s = .error r) :
    ∃ s' rest, r = .pending s' rest := by
  induction chunks generalizing s with
  | nil =>
    simp only [recvRest] at h
    split at h
    · exact ⟨s, [], by simpa using h.symm⟩
    · simp at h
  | cons c cs ih =>
    simp only [recvRest] at h
    split at h
    · exact ih _ h
    · simp at h

/-- The body loop preserves the buffer length. -/
theorem recvRest_ok_buffer_length (chunks : List Chunk) (s s' : InBound)
    (rest : List Chunk) (h : recvRest chunks s = .ok (s', rest)) :
    s'.buffer.length = s.buffer.length := by
  induction chunks generalizing s with
  | nil =>
    simp only [recvRest] at h
    split at h
    · simp at h
    · simp at h
      simp [h.1]
  | cons c cs ih =>
    simp only [recvRest] at h
    split at h
    · have := ih _ h
      simpa [length_writeAt] using this
    · simp at h
      simp [h.1]

/-- The body loop does not touch `prev_seq`. -/
theorem recvRest_ok_prev_seq (chunks : List Chunk) (s s' : InBound)
    (rest : List Chunk) (h : recvRest chunks s = .ok (s', rest)) :
    s'.prev_seq = s.prev_seq := by
  induction chunks generalizing s with
  | nil =>
    simp only [recvRest] at h
    split at h
    · simp at h
    · simp at h
      simp [h.1]
  | cons c cs ih =>
    simp only [recvRest] at h
    split at h
    · have := ih _ h
      simpa using this
    · simp at h
      simp [h.1]

/-- A body loop fed only 0-byte reads (EOF) spins without ever returning:
every poll is consumed, the state never changes, and the outcome is
`pending` — never an error. -/
theorem recvRest_eof_spins (k : Nat) (s : InBound)
    (h : s.pos < s.buffer.length) :
    recvRest (List.replicate k ⟨[], []⟩) s = .error (.pending s []) := by
  induction k with
  | zero =>
    simp only [recvRest]
    simp [h]
  | succ n ih =>
    rw [List.replicate_succ]
    simp only [recvRest]
    have hlen : recvLen s.buffer s.pos [] = 0 := by simp [recvLen]
    simp only [h, dite_true, gt_iff_lt, if_pos, hlen, writeAt_nil,
      List.append_nil, Nat.add_zero]
    exact ih

/-- When at least `MIN_MESSAGE_SIZE` bytes are already buffered the
preamble loop does nothing. -/
theorem recvPreamble_done (chunks : List Chunk) (s : InBound)
    (h : ¬ s.pos < MIN_MESSAGE_SIZE) :
    recvPreamble chunks s = .ok (s, chunks) := by
  cases chunks <;> · simp only [recvPreamble]
                     rw [dif_neg h]

/-- Successful `from_raw_parts` returns exactly the given parts. -/
theorem from_raw_parts_ok (host : Endian) (b f : List Nat) (q : Nat)
    (m : Message) (h : Message.from_raw_parts host b f q = .ok m) :
    m = ⟨b, f, q⟩ := by
  simp only [Message.from_raw_parts] at h
  split at h
  · simp at h
  · split at h
    · simp at h
    · split at h
      · simp at h
      · split at h
        · split at h
          · split at h
            · simp only [Except.ok.injEq] at h
              exact h.symm
            · simp at h
          · simp at h
          · simp only [Except.ok.injEq] at h
            exact h.symm
        · simp at h

/-- `from_raw_parts` never reports `ExcessData` for a buffer within the
cap: its other error paths are the deserializer, `MissingField` and
`InvalidField` kinds. -/
theorem from_raw_parts_excess (host : Endian) (b f : List Nat) (q : Nat)
    (h : Message.from_raw_parts host b f q = .error .excessData) :
    MAX_MESSAGE_SIZE < b.length := by
  simp only [Message.from_raw_parts] at h
  split at h
  · omega
  · split at h
    · rename_i e he
      simp only [Except.error.injEq] at h
      subst h
      simp only [PrimaryHeader.read] at he
      split at he
      · simp at he
      · split at he <;> simp at he
    · split at h
      · rename_i e he
        simp only [Except.error.injEq] at h
        subst h
        simp only [parseHeaderFields] at he
        split at he <;> simp at he
      · split at h
        · split at h
          · split at h
            · simp at h
            · simp at h
          · simp at h
          · simp at h
        · simp at h

/-- A successful `try_receive_message` assigns `prev_seq + 1` as the
message's sequence number and stores it back as the new `prev_seq`. -/
theorem tryReceiveMessage_ok_seq (host : Endian) (chunks : List Chunk)
    (s : InBound) (m : Message) (s' : InBound) (rest : List Chunk)
    (h : tryReceiveMessage host chunks s = .ok m s' rest) :
    m.seq = s.prev_seq + 1 ∧ s'.prev_seq = s.prev_seq + 1 := by
  simp only [tryReceiveMessage] at h
  have hseq₁ :
      (if s.pos < MIN_MESSAGE_SIZE then
        { s with buffer := resize s.buffer MIN_MESSAGE_SIZE } else s).prev_seq
        = s.prev_seq := by
    split <;> rfl
  split at h
  · rename_i r hr
    rcases recvPreamble_error _ _ _ hr with ⟨s₂, rest₂, rfl, _⟩ |
      ⟨s₂, rest₂, rfl, _⟩ <;> simp at h
  · rename_i s₂ chunks₂ hpre
    have hseq₂ := (recvPreamble_ok_prev_seq _ _ _ _ hpre).trans hseq₁
    split at h
    · simp at h
    · rename_i ph fl hread
      split at h
      · simp at h
      · split at h
        · rename_i r hr
          rcases recvRest_error _ _ _ hr with ⟨s₄, rest₄, rfl⟩
          simp at h
        · rename_i s₄ rest₄ hrest
          have hseq₄ := recvRest_ok_prev_seq _ _ _ _ hrest
          split at h
          · simp at h
          · rename_i m' hm'
            have := from_raw_parts_ok _ _ _ _ _ hm'
            simp only [Recv.ok.injEq] at h
            obtain ⟨rfl, rfl, rfl⟩ := h
            subst this
            simp only []
            constructor <;> (rw [hseq₄]; rw [hseq₂])

/-- An erroring `try_receive_message` either leaves `prev_seq` untouched
(failures before the message's bytes are complete) or — when the message
completed but `from_raw_parts` failed — has already consumed the next
sequence number, with the buffer taken and the cursor reset
(connection.rs:219-231 bumps `prev_seq` before the fallible parse). -/
theorem tryReceiveMessage_err_seq (host : Endian) (chunks : List Chunk)
    (s : InBound) (e : Error) (s' : InBound) (rest : List Chunk)
    (h : tryReceiveMessage host chunks s = .err e s' rest) :
    s'.prev_seq = s.prev_seq ∨
      (s'.prev_seq = s.prev_seq + 1 ∧ s'.buffer = [] ∧ s'.pos = 0) := by
  simp only [tryReceiveMessage] at h
  have hseq₁ :
      (if s.pos < MIN_MESSAGE_SIZE then
        { s with buffer := resize s.buffer MIN_MESSAGE_SIZE } else s).prev_seq
        = s.prev_seq := by
    split <;> rfl
  split at h
  · rename_i r hr
    rcases recvPreamble_error _ _ _ hr with ⟨s₂, rest₂, rfl, _⟩ |
      ⟨s₂, rest₂, rfl, hs₂⟩
    · simp at h
    · simp only [Recv.err.injEq] at h
      obtain ⟨rfl, rfl, rfl⟩ := h
      exact .inl (hs₂.trans hseq₁)
  · rename_i s₂ chunks₂ hpre
    have hseq₂ := (recvPreamble_ok_prev_seq _ _ _ _ hpre).trans hseq₁
    split at h
    · simp only [Recv.err.injEq] at h
      obtain ⟨rfl, rfl, rfl⟩ := h
      exact .inl hseq₂
    · rename_i ph fl hread
      split at h
      · simp only [Recv.err.injEq] at h
        obtain ⟨rfl, rfl, rfl⟩ := h
        exact .inl hseq₂
      · split at h
        · rename_i r hr
          rcases recvRest_error _ _ _ hr with ⟨s₄, rest₄, rfl⟩
          simp at h
        · rename_i s₄ rest₄ hrest
          have hseq₄ := recvRest_ok_prev_seq _ _ _ _ hrest
          split at h
          · simp only [Recv.err.injEq] at h
            obtain ⟨rfl, rfl, rfl⟩ := h
            refine .inr ⟨?_, rfl, rfl⟩
            simp only []
            rw [hseq₄, hseq₂]
          · simp at h

/-- Threading any all-successful sequence of receives from inbound state
`s` yields the sequence numbers `s.prev_seq + 1, s.prev_seq + 2, ...` in
order. -/
theorem runReceives_seqs (host : Endian) (scripts : List (List Chunk))
    (s : InBound) (msgs : List Message) (sf : InBound)
    (h : runReceives host scripts s = some (msgs, sf)) :
    msgs.map Message.seq = List.range' (s.prev_seq + 1) msgs.length := by
  induction scripts generalizing s msgs with
  | nil =>
    simp only [runReceives] at h
    obtain ⟨rfl, rfl⟩ := by simpa using h
    simp
  | cons sc rest ih =>
    simp only [runReceives] at h
    split at h
    · rename_i m s' rest' hstep
      rw [Option.map_eq_some'] at h
      obtain ⟨p, hp, hmsgs⟩ := h
      have hm : m :: p.1 = msgs := congrArg Prod.fst hmsgs
      have hs2 : p.2 = sf := congrArg Prod.snd hmsgs
      subst hm
      have hseq := tryReceiveMessage_ok_seq _ _ _ _ _ _ hstep
      have := ih s' p.1 (by rw [hp, ← hs2])
      simp only [List.map_cons, List.length_cons, List.range'_succ]
      rw [hseq.1, this, hseq.2]
    · simp at h

/-- Membership in `sentPos` is membership of a `sent` event. -/
theorem mem_sentPos (tr : List FlushEv) (i p : Nat) :
    p ∈ sentPos tr i ↔ ∃ f, FlushEv.sent i p f ∈ tr := by
  simp only [sentPos, List.mem_filterMap]
  constructor
  · rintro ⟨ev, hev, hm⟩
    cases ev with
    | sent i' p' f =>
      by_cases hi : i' = i
      · subst hi
        simp at hm
        subst hm
        exact ⟨f, hev⟩
      · simp [hi] at hm
    | popped _ _ _ => simp at hm
  · rintro ⟨f, hf⟩
    exact ⟨.sent i p f, hf, by simp⟩

/-- Every `sendmsg` call in a flush concerns a message at or after the
entry head, and its fd-list argument is the message's own fds when its
cursor is 0 and the empty list otherwise. -/
theorem tryFlushAux_sent_spec (script : List SendRes) (idx pos : Nat)
    (msgs : List OutMsg) :
    ∀ i p f, FlushEv.sent i p f ∈ (tryFlushAux script idx pos msgs).1 →
      idx ≤ i ∧ f = (if p = 0 then (msgs.getD (i - idx) ⟨[], []⟩).fds
        else []) := by
  induction script, idx, pos, msgs using Zbus.tryFlushAux.induct with
  | case1 script idx pos =>
    intro i p f h
    rw [tryFlushAux.eq_def] at h
    simp at h
  | case2 script idx pos m rest hle ih =>
    intro i p f h
    rw [tryFlushAux.eq_def] at h
    simp only [dif_pos hle, List.mem_cons] at h
    rcases h with h | h
    · simp at h
    · obtain ⟨hle2, hf⟩ := ih i p f h
      refine ⟨by omega, ?_⟩
      have hidx : (m :: rest).getD (i - idx) (⟨[], []⟩ : OutMsg) =
          rest.getD (i - (idx + 1)) ⟨[], []⟩ := by
        have h1 : i - idx = (i - (idx + 1)) + 1 := by omega
        rw [h1, List.getD_cons_succ]
      rw [hidx]
      exact hf
  | case3 idx pos m rest hle =>
    intro i p f h
    rw [tryFlushAux.eq_def] at h
    simp [dif_neg hle] at h
  | case4 idx pos m rest hle srest =>
    intro i p f h
    rw [tryFlushAux.eq_def] at h
    simp only [dif_neg hle, List.mem_singleton, FlushEv.sent.injEq] at h
    obtain ⟨rfl, rfl, rfl⟩ := h
    simp
  | case5 idx pos m rest hle srest e =>
    intro i p f h
    rw [tryFlushAux.eq_def] at h
    simp only [dif_neg hle, List.mem_singleton, FlushEv.sent.injEq] at h
    obtain ⟨rfl, rfl, rfl⟩ := h
    simp
  | case6 idx pos m rest hle srest n acc ih =>
    intro i p f h
    rw [tryFlushAux.eq_def] at h
    simp only [dif_neg hle, List.mem_cons] at h
    rcases h with h | h
    · simp only [FlushEv.sent.injEq] at h
      obtain ⟨rfl, rfl, rfl⟩ := h
      simp
    · exact ih i p f h

/-- Within one call, every `sendmsg` for the entry-head message happens at
a cursor at or past the entry cursor. -/
theorem tryFlushAux_sent_pos_ge (script : List SendRes) (idx pos : Nat)
    (msgs : List OutMsg) :
    ∀ p f, FlushEv.sent idx p f ∈ (tryFlushAux script idx pos msgs).1 →
      pos ≤ p := by
  induction script, idx, pos, msgs using Zbus.tryFlushAux.induct with
  | case1 script idx pos =>
    intro p f h
    rw [tryFlushAux.eq_def] at h
    simp at h
  | case2 script idx pos m rest hle ih =>
    intro p f h
    rw [tryFlushAux.eq_def] at h
    simp only [dif_pos hle, List.mem_cons] at h
    rcases h with h | h
    · simp at h
    · have := (tryFlushAux_sent_spec script (idx + 1) 0 rest idx p f h).1
      omega
  | case3 idx pos m rest hle =>
    intro p f h
    rw [tryFlushAux.eq_def] at h
    simp [dif_neg hle] at h
  | case4 idx pos m rest hle srest =>
    intro p f h
    rw [tryFlushAux.eq_def] at h
    simp only [dif_neg hle, List.mem_singleton, FlushEv.sent.injEq] at h
    omega
  | case5 idx pos m rest hle srest e =>
    intro p f h
    rw [tryFlushAux.eq_def] at h
    simp only [dif_neg hle, List.mem_singleton, FlushEv.sent.injEq] at h
    omega
  | case6 idx pos m rest hle srest n acc ih =>
    intro p f h
    rw [tryFlushAux.eq_def] at h
    simp only [dif_neg hle, List.mem_cons] at h
    rcases h with h | h
    · simp only [FlushEv.sent.injEq] at h
      omega
    · have := ih p f h
      omega

/-- When every accepted write is at least one byte, the cursor positions
of the `sendmsg` calls for any one message are strictly increasing in call
order. -/
theorem tryFlushAux_sentPos_pairwise (script : List SendRes) (idx pos : Nat)
    (msgs : List OutMsg) :
    (∀ n, SendRes.ready n ∈ script → 1 ≤ n) →
      ∀ i, (sentPos (tryFlushAux script idx pos msgs).1 i).Pairwise
        (· < ·) := by
  induction script, idx, pos, msgs using Zbus.tryFlushAux.induct with
  | case1 script idx pos =>
    intro _ i
    rw [tryFlushAux.eq_def]
    simp [sentPos]
  | case2 script idx pos m rest hle ih =>
    intro hready i
    rw [tryFlushAux.eq_def]
    simp only [dif_pos hle, sentPos, List.filterMap_cons]
    exact ih hready i
  | case3 idx pos m rest hle =>
    intro _ i
    rw [tryFlushAux.eq_def]
    simp [dif_neg hle, sentPos]
  | case4 idx pos m rest hle srest =>
    intro _ i
    rw [tryFlushAux.eq_def]
    simp only [dif_neg hle, sentPos, List.filterMap_cons]
    split <;> simp
  | case5 idx pos m rest hle srest e =>
    intro _ i
    rw [tryFlushAux.eq_def]
    simp only [dif_neg hle, sentPos, List.filterMap_cons]
    split <;> simp
  | case6 idx pos m rest hle srest n acc ih =>
    intro hready i
    have hready2 : ∀ n2, SendRes.ready n2 ∈ srest → 1 ≤ n2 :=
      fun n2 hn2 => hready n2 (List.mem_cons_of_mem _ hn2)
    have hacc : 1 ≤ acc := by
      have hn : 1 ≤ n := hready n (List.mem_cons_self _ _)
      simp only [acc]
      omega
    rw [tryFlushAux.eq_def]
    simp only [dif_neg hle, sentPos, List.filterMap_cons]
    by_cases hi : idx = i
    · subst hi
      simp only [if_pos rfl]
      refine List.Pairwise.cons ?_ ?_
      · intro p2 hp2
        obtain ⟨f2, hf2⟩ := (mem_sentPos _ _ _).mp hp2
        have := tryFlushAux_sent_pos_ge srest idx (pos + acc) (m :: rest)
          p2 f2 hf2
        omega
      · have := ih hready2 idx
        simpa [sentPos] using this
    · simp only [if_neg hi]
      have := ih hready2 i
      simpa [sentPos] using this


/-- A message is popped only with the cursor at exactly its byte length,
provided the entry cursor does not already overshoot the head message. -/
theorem tryFlushAux_popped (script : List SendRes) (idx pos : Nat)
    (msgs : List OutMsg) :
    (∀ m0, msgs.head? = some m0 → pos ≤ m0.bytes.length) →
      ∀ i p l, FlushEv.popped i p l ∈ (tryFlushAux script idx pos msgs).1 →
        p = l := by
  induction script, idx, pos, msgs using Zbus.tryFlushAux.induct with
  | case1 script idx pos =>
    intro _ i p l h
    rw [tryFlushAux.eq_def] at h
    simp at h
  | case2 script idx pos m rest hle ih =>
    intro hpos i p l h
    rw [tryFlushAux.eq_def] at h
    simp only [dif_pos hle, List.mem_cons] at h
    rcases h with h | h
    · simp only [FlushEv.popped.injEq] at h
      obtain ⟨rfl, rfl, rfl⟩ := h
      have := hpos m rfl
      omega
    · exact ih (fun m0 _ => Nat.zero_le _) i p l h
  | case3 idx pos m rest hle =>
    intro _ i p l h
    rw [tryFlushAux.eq_def] at h
    simp [dif_neg hle] at h
  | case4 idx pos m rest hle srest =>
    intro _ i p l h
    rw [tryFlushAux.eq_def] at h
    simp [dif_neg hle] at h
  | case5 idx pos m rest hle srest e =>
    intro _ i p l h
    rw [tryFlushAux.eq_def] at h
    simp [dif_neg hle] at h
  | case6 idx pos m rest hle srest n acc ih =>
    intro hpos i p l h
    rw [tryFlushAux.eq_def] at h
    simp only [dif_neg hle, List.mem_cons] at h
    rcases h with h | h
    · simp at h
    · refine ih ?_ i p l h
      intro m0 hm0
      simp only [List.head?_cons, Option.some.injEq] at hm0
      subst hm0
      simp only [acc]
      omega

/-- A flush that comes back `Poll::Pending` leaves a non-empty queue that
is a suffix of the entry queue, with the cursor strictly inside the (still
unpopped) head message. -/
theorem tryFlushAux_pending (script : List SendRes) (idx pos : Nat)
    (msgs : List OutMsg) :
    ∀ ob2, (tryFlushAux script idx pos msgs).2 = .pending ob2 →
      (∃ k, ob2.msgs = msgs.drop k) ∧ ob2.msgs ≠ [] ∧
        ob2.pos < (ob2.msgs.headD ⟨[], []⟩).bytes.length := by
  induction script, idx, pos, msgs using Zbus.tryFlushAux.induct with
  | case1 script idx pos =>
    intro ob2 h
    rw [tryFlushAux.eq_def] at h
    simp at h
  | case2 script idx pos m rest hle ih =>
    intro ob2 h
    rw [tryFlushAux.eq_def] at h
    simp only [dif_pos hle] at h
    obtain ⟨⟨k, hk⟩, hne, hlt⟩ := ih ob2 h
    exact ⟨⟨k + 1, by simpa using hk⟩, hne, hlt⟩
  | case3 idx pos m rest hle =>
    intro ob2 h
    rw [tryFlushAux.eq_def] at h
    simp only [dif_neg hle, FlushRes.pending.injEq] at h
    subst h
    exact ⟨⟨0, rfl⟩, by simp, by simpa using by omega⟩
  | case4 idx pos m rest hle srest =>
    intro ob2 h
    rw [tryFlushAux.eq_def] at h
    simp only [dif_neg hle, FlushRes.pending.injEq] at h
    subst h
    exact ⟨⟨0, rfl⟩, by simp, by simpa using by omega⟩
  | case5 idx pos m rest hle srest e =>
    intro ob2 h
    rw [tryFlushAux.eq_def] at h
    simp [dif_neg hle] at h
  | case6 idx pos m rest hle srest n acc ih =>
    intro ob2 h
    rw [tryFlushAux.eq_def] at h
    simp only [dif_neg hle] at h
    exact ih ob2 h

/-- A flush that comes back `Poll::Ready(Ok(()))` has drained the queue,
and exactly then the `out_queue_ready` event was notified. -/
theorem tryFlushAux_flushed (script : List SendRes) (idx pos : Nat)
    (msgs : List OutMsg) :
    ∀ ob2 ntf, (tryFlushAux script idx pos msgs).2 = .flushed ob2 ntf →
      ob2.msgs = [] ∧ ntf = true := by
  induction script, idx, pos, msgs using Zbus.tryFlushAux.induct with
  | case1 script idx pos =>
    intro ob2 ntf h
    rw [tryFlushAux.eq_def] at h
    simp only [FlushRes.flushed.injEq] at h
    obtain ⟨rfl, rfl⟩ := h
    exact ⟨rfl, rfl⟩
  | case2 script idx pos m rest hle ih =>
    intro ob2 ntf h
    rw [tryFlushAux.eq_def] at h
    simp only [dif_pos hle] at h
    exact ih ob2 ntf h
  | case3 idx pos m rest hle =>
    intro ob2 ntf h
    rw [tryFlushAux.eq_def] at h
    simp [dif_neg hle] at h
  | case4 idx pos m rest hle srest =>
    intro ob2 ntf h
    rw [tryFlushAux.eq_def] at h
    simp [dif_neg hle] at h
  | case5 idx pos m rest hle srest e =>
    intro ob2 ntf h
    rw [tryFlushAux.eq_def] at h
    simp [dif_neg hle] at h
  | case6 idx pos m rest hle srest n acc ih =>
    intro ob2 ntf h
    rw [tryFlushAux.eq_def] at h
    simp only [dif_neg hle] at h
    exact ih ob2 ntf h

/-- Every `sendmsg` call of `send_message` is at or past the entry cursor
and passes the message fds exactly when its cursor is 0. -/
theorem sendMessageAux_spec (script : List SendRes) (m : OutMsg)
    (pos : Nat) :
    ∀ p f, (p, f) ∈ (sendMessageAux script m pos).1 →
      pos ≤ p ∧ f = (if p = 0 then m.fds else []) := by
  induction script, m, pos using Zbus.sendMessageAux.induct with
  | case1 m pos hlt =>
    intro p f h
    rw [sendMessageAux.eq_def] at h
    simp [dif_pos hlt] at h
  | case2 m pos hlt srest ih =>
    intro p f h
    rw [sendMessageAux.eq_def] at h
    simp only [dif_pos hlt] at h
    exact ih p f h
  | case3 m pos hlt srest e =>
    intro p f h
    rw [sendMessageAux.eq_def] at h
    simp only [dif_pos hlt, List.mem_singleton, Prod.mk.injEq] at h
    obtain ⟨rfl, rfl⟩ := h
    simp
  | case4 m pos hlt srest n acc ih =>
    intro p f h
    rw [sendMessageAux.eq_def] at h
    simp only [dif_pos hlt, List.mem_cons] at h
    rcases h with h | h
    · simp only [Prod.mk.injEq] at h
      obtain ⟨rfl, rfl⟩ := h
      simp
    · obtain ⟨hge, hf⟩ := ih p f h
      exact ⟨by omega, hf⟩
  | case5 script m pos hlt =>
    intro p f h
    rw [sendMessageAux.eq_def] at h
    simp [dif_neg hlt] at h

/-- When every accepted write is at least one byte, the cursor positions
of the `sendmsg` calls of `send_message` strictly increase in call
order. -/
theorem sendMessageAux_pairwise (script : List SendRes) (m : OutMsg)
    (pos : Nat) :
    (∀ n, SendRes.ready n ∈ script → 1 ≤ n) →
      ((sendMessageAux script m pos).1.map Prod.fst).Pairwise (· < ·) := by
  induction script, m, pos using Zbus.sendMessageAux.induct with
  | case1 m pos hlt =>
    intro _
    rw [sendMessageAux.eq_def]
    simp [dif_pos hlt]
  | case2 m pos hlt srest ih =>
    intro hready
    rw [sendMessageAux.eq_def]
    simp only [dif_pos hlt]
    exact ih fun n2 hn2 => hready n2 (List.mem_cons_of_mem _ hn2)
  | case3 m pos hlt srest e =>
    intro _
    rw [sendMessageAux.eq_def]
    simp [dif_pos hlt]
  | case4 m pos hlt srest n acc ih =>
    intro hready
    have hready2 : ∀ n2, SendRes.ready n2 ∈ srest → 1 ≤ n2 :=
      fun n2 hn2 => hready n2 (List.mem_cons_of_mem _ hn2)
    have hacc : 1 ≤ acc := by
      have hn : 1 ≤ n := hready n (List.mem_cons_self _ _)
      simp only [acc]
      omega
    rw [sendMessageAux.eq_def]
    simp only [dif_pos hlt, List.map_cons]
    refine List.Pairwise.cons ?_ (ih hready2)
    intro p2 hp2
    obtain ⟨⟨p3, f3⟩, hmem, hfst⟩ := List.mem_map.mp hp2
    subst hfst
    have := (sendMessageAux_spec srest m (pos + acc) p3 f3 hmem).1
    omega
  | case5 script m pos hlt =>
    intro _
    rw [sendMessageAux.eq_def]
    simp [dif_neg hlt]

/-! ## Claim theorems -/

/-- C1: the claim says `PrimaryHeader::read` decodes its u32 quantities in
the byte order declared by the buffer's `endian_sig` byte, and that a
buffer tagged `'B'` read on a little-endian host yields a `body_len` equal
to the big-endian interpretation of bytes 4..8.  The code does NOT do
this: `read` builds its `EncodingContext` over `byteorder::NativeEndian`
(header.rs:180), so on a little-endian host the bytes `[0,0,0,1]` at
offsets 4..8 of a `'B'`-tagged buffer decode to `16777216`
(little-endian), not to `1` (their big-endian interpretation). -/
theorem C1_read_decodes_u32_in_host_order_not_wire_order :
    PrimaryHeader.read .little
        (mkBuf16 66 1 0 1 0 0 0 1 0 0 0 0 0 0 0 0) =
      .ok (⟨.big, .methodCall, 0, 1, 16777216, some 0⟩, 0) ∧
    u32At .big (mkBuf16 66 1 0 1 0 0 0 1 0 0 0 0 0 0 0 0) 4 = 1 ∧
    (16777216 : Nat) ≠ 1 := by
  refine ⟨by decide, by decide, by decide⟩

/-- C3 counterexample: a buffer whose `protocol_version` byte (offset 3)
is 2 is decoded successfully by `PrimaryHeader::read` — the claim says it
must fail with `UnknownProtocol`. -/
theorem C3_cx_version_2_decodes_successfully :
    PrimaryHeader.read .little
        (mkBuf16 108 1 0 2 1 0 0 0 0 0 0 0 0 0 0 0) =
      .ok (⟨.little, .methodCall, 0, 2, 1, some 0⟩, 0) := by
  decide

/-- C3 amended: `PrimaryHeader::read` performs no validation of the
`protocol_version` byte at all.  For every 16-byte buffer whose endian,
type and flags bytes deserialize, `read` succeeds whatever the version
byte `b3` is, and returns it verbatim; in particular a header with
`protocol_version = 2` is decoded successfully rather than rejected. -/
theorem C3_read_ignores_protocol_version (host : Endian)
    (b0 b1 b2 b3 b4 b5 b6 b7 b8 b9 b10 b11 b12 b13 b14 b15 : Nat)
    (e : EndianSig) (t : MsgType) (f : Nat)
    (he : decodeEndianSig b0 = some e) (ht : decodeType b1 = some t)
    (hf : decodeFlags b2 = some f) :
    PrimaryHeader.read host
        (mkBuf16 b0 b1 b2 b3 b4 b5 b6 b7 b8 b9 b10 b11 b12 b13 b14 b15) =
      .ok (⟨e, t, f, b3,
        u32At host (mkBuf16 b0 b1 b2 b3 b4 b5 b6 b7 b8 b9 b10 b11 b12 b13
          b14 b15) 4,
        some (u32At host (mkBuf16 b0 b1 b2 b3 b4 b5 b6 b7 b8 b9 b10 b11 b12
          b13 b14 b15) 8)⟩,
        u32At host (mkBuf16 b0 b1 b2 b3 b4 b5 b6 b7 b8 b9 b10 b11 b12 b13
          b14 b15) 12) := by
  simp [PrimaryHeader.read, mkBuf16, MIN_MESSAGE_SIZE, PRIMARY_HEADER_SIZE,
    he, ht, hf]

/-- C3 witness: the amended theorem applied at the concrete version-2
buffer of the counterexample. -/
theorem C3_read_ignores_protocol_version_witness :
    PrimaryHeader.read .little
        (mkBuf16 108 1 0 2 1 0 0 0 0 0 0 0 0 0 0 0) =
      .ok (⟨.little, .methodCall, 0, 2,
        u32At .little (mkBuf16 108 1 0 2 1 0 0 0 0 0 0 0 0 0 0 0) 4,
        some (u32At .little (mkBuf16 108 1 0 2 1 0 0 0 0 0 0 0 0 0 0 0) 8)⟩,
        u32At .little (mkBuf16 108 1 0 2 1 0 0 0 0 0 0 0 0 0 0 0) 12) :=
  C3_read_ignores_protocol_version .little 108 1 0 2 1 0 0 0 0 0 0 0 0 0 0 0
    .little .methodCall 0 (by decide) (by decide) (by decide)

/-- C7: `enqueue_message` appends the message to the outbound queue
unconditionally — it is a total function that always returns the old queue
with the message pushed at the back, so it never blocks, fails or drops —
and `await_out_queue_ready` returns `None` exactly when the queue length
is strictly below `MAX_OUT_QUEUE_LEN = 4`, and a listener on the
`out_queue_ready` event otherwise. -/
theorem C7_enqueue_unconditional_await_below_cap
    (ob : OutBound) (m : OutMsg) :
    (enqueueMessage ob m).msgs = ob.msgs ++ [m] ∧
    (awaitOutQueueReady ob = none ↔ ob.msgs.length < MAX_OUT_QUEUE_LEN) ∧
    (awaitOutQueueReady ob = some () ↔ ¬ ob.msgs.length < MAX_OUT_QUEUE_LEN) ∧
    MAX_OUT_QUEUE_LEN = 4 := by
  refine ⟨rfl, ?_, ?_, rfl⟩ <;>
    · simp only [awaitOutQueueReady]
      split <;> simp_all

/-- C9 counterexample: `launchctl` succeeding with stdout `" /a\n"` (note
the LEADING space) produces the Unix `File` path `"/a"`, whereas the
claim's words — stdout with only TRAILING whitespace trimmed — require
`" /a"`.  `str::trim` removes whitespace on both sides. -/
theorem C9_cx_leading_whitespace_also_trimmed :
    busAddress ⟨true, "", " /a\n"⟩ = .ok (.unix ⟨.file "/a"⟩) ∧
    specTrimEnd " /a\n" = " /a" ∧
    ("/a" : String) ≠ " /a" := by
  refine ⟨by decide, by decide, by decide⟩

/-- C9 amended: resolving a Launchd address with a non-zero `launchctl`
exit status yields an `Address` error whose message is
`"launchctl terminated with code: "` followed by the status (so it begins
with that text), and with a zero exit status it yields a Unix transport
whose `File` path is the stdout with BOTH leading and trailing whitespace
trimmed (`str::trim`). -/
theorem C9_launchd_bus_address (o : CmdOutput) :
    (o.success = false →
      busAddress o = .error (.address ("launchctl terminated with code: " ++
        o.statusDisplay))) ∧
    (o.success = true →
      busAddress o = .ok (.unix ⟨.file (rustTrim o.stdout)⟩)) := by
  constructor <;> intro h <;> simp [busAddress, h]

/-- C9 witness: the amended theorem applied to a failing and to a
succeeding `launchctl` run. -/
theorem C9_launchd_bus_address_witness :
    busAddress ⟨false, "exit status: 1", ""⟩ =
      .error (.address "launchctl terminated with code: exit status: 1") ∧
    busAddress ⟨true, "", "/tmp/ldbus\n"⟩ =
      .ok (.unix ⟨.file (rustTrim "/tmp/ldbus\n")⟩) :=
  ⟨(C9_launchd_bus_address ⟨false, "exit status: 1", ""⟩).1 rfl,
    (C9_launchd_bus_address ⟨true, "", "/tmp/ldbus\n"⟩).2 rfl⟩

/-- C10: every typed field accessor returns `Ok(None)` when no field with
its code is present, `Ok(Some(value))` when the field with its code is
present with the matching variant, and `Err(InvalidField)` when a field
with its code is present but carries a mismatched variant (the `Some(_)`
arm of the `get_field!` macro).  One triple of statements per accessor, in
source order: path, interface, member, error_name, reply_serial,
destination, sender, signature, unix_fds. -/
theorem C10_typed_accessors_trichotomy (h : Header) :
    ((get_field h.fields .path = none → h.path = .ok none) ∧
     (∀ v, get_field h.fields .path = some (.path v) →
       h.path = .ok (some v)) ∧
     (∀ f, get_field h.fields .path = some f → (∀ v, f ≠ .path v) →
       h.path = .error .invalidField)) ∧
    ((get_field h.fields .interface = none → h.interface = .ok none) ∧
     (∀ v, get_field h.fields .interface = some (.interface v) →
       h.interface = .ok (some v)) ∧
     (∀ f, get_field h.fields .interface = some f →
       (∀ v, f ≠ .interface v) → h.interface = .error .invalidField)) ∧
    ((get_field h.fields .member = none → h.member = .ok none) ∧
     (∀ v, get_field h.fields .member = some (.member v) →
       h.member = .ok (some v)) ∧
     (∀ f, get_field h.fields .member = some f → (∀ v, f ≠ .member v) →
       h.member = .error .invalidField)) ∧
    ((get_field h.fields .errorName = none → h.error_name = .ok none) ∧
     (∀ v, get_field h.fields .errorName = some (.errorName v) →
       h.error_name = .ok (some v)) ∧
     (∀ f, get_field h.fields .errorName = some f →
       (∀ v, f ≠ .errorName v) → h.error_name = .error .invalidField)) ∧
    ((get_field h.fields .replySerial = none → h.reply_serial = .ok none) ∧
     (∀ v, get_field h.fields .replySerial = some (.replySerial v) →
       h.reply_serial = .ok (some v)) ∧
     (∀ f, get_field h.fields .replySerial = some f →
       (∀ v, f ≠ .replySerial v) → h.reply_serial = .error .invalidField)) ∧
    ((get_field h.fields .destination = none → h.destination = .ok none) ∧
     (∀ v, get_field h.fields .destination = some (.destination v) →
       h.destination = .ok (some v)) ∧
     (∀ f, get_field h.fields .destination = some f →
       (∀ v, f ≠ .destination v) → h.destination = .error .invalidField)) ∧
    ((get_field h.fields .sender = none → h.sender = .ok none) ∧
     (∀ v, get_field h.fields .sender = some (.sender v) →
       h.sender = .ok (some v)) ∧
     (∀ f, get_field h.fields .sender = some f → (∀ v, f ≠ .sender v) →
       h.sender = .error .invalidField)) ∧
    ((get_field h.fields .signature = none → h.signature = .ok none) ∧
     (∀ v, get_field h.fields .signature = some (.signature v) →
       h.signature = .ok (some v)) ∧
     (∀ f, get_field h.fields .signature = some f →
       (∀ v, f ≠ .signature v) → h.signature = .error .invalidField)) ∧
    ((get_field h.fields .unixFDs = none → h.unix_fds = .ok none) ∧
     (∀ v, get_field h.fields .unixFDs = some (.unixFDs v) →
       h.unix_fds = .ok (some v)) ∧
     (∀ f, get_field h.fields .unixFDs = some f → (∀ v, f ≠ .unixFDs v) →
       h.unix_fds = .error .invalidField)) := by
  refine ⟨⟨?_, ?_, ?_⟩, ⟨?_, ?_, ?_⟩, ⟨?_, ?_, ?_⟩, ⟨?_, ?_, ?_⟩,
    ⟨?_, ?_, ?_⟩, ⟨?_, ?_, ?_⟩, ⟨?_, ?_, ?_⟩, ⟨?_, ?_, ?_⟩, ⟨?_, ?_, ?_⟩⟩
  all_goals first
    | (intro h1
       simp only [Header.path, Header.interface, Header.member,
         Header.error_name, Header.reply_serial, Header.destination,
         Header.sender, Header.signature, Header.unix_fds, h1])
    | (intro v h1
       simp only [Header.path, Header.interface, Header.member,
         Header.error_name, Header.reply_serial, Header.destination,
         Header.sender, Header.signature, Header.unix_fds, h1])
  all_goals
    intro h2
    cases v <;> first | exact absurd rfl (h2 _) | rfl

/-- C10 witness: the trichotomy applied to a concrete header carrying a
path and a reply-serial field. -/
theorem C10_typed_accessors_trichotomy_witness :
    (Header.mk ⟨.little, .methodReturn, 0, 1, 0, some 3⟩
        [.path "/org/x", .replySerial 9]).path = .ok (some "/org/x") ∧
    (Header.mk ⟨.little, .methodReturn, 0, 1, 0, some 3⟩
        [.path "/org/x", .replySerial 9]).reply_serial = .ok (some 9) ∧
    (Header.mk ⟨.little, .methodReturn, 0, 1, 0, some 3⟩
        [.path "/org/x", .replySerial 9]).sender = .ok none :=
  ⟨(C10_typed_accessors_trichotomy _).1.2.1 "/org/x" (by decide),
    (C10_typed_accessors_trichotomy _).2.2.2.2.1.2.1 9 (by decide),
    (C10_typed_accessors_trichotomy _).2.2.2.2.2.2.1.1 (by decide)⟩

/-- C8 counterexample: the source (connection.rs:219-231) bumps
`prev_seq` BEFORE the fallible `Message::from_raw_parts`, so a completed
message whose parse fails (§4.C validation can fail, and per §7 decode
errors are non-fatal) consumes a sequence number.  A MethodCall with no
header fields fails validation (required Path/Member absent) after
consuming sequence 1, and the next successfully received message then
carries sequence 2 — not 1 as the claim requires of the first successful
message. -/
theorem C8_cx_failed_parse_consumes_seq :
    tryReceiveMessage .little
        [⟨[108, 1, 0, 1, 0, 0, 0, 0, 0, 0, 0, 0, 0, 0, 0, 0], []⟩]
        (InBound.new []) = .err .missingField ⟨[], [], 0, 1⟩ [] ∧
    tryReceiveMessage .little
        [⟨[108, 0, 0, 1, 0, 0, 0, 0, 0, 0, 0, 0, 0, 0, 0, 0], []⟩]
        ⟨[], [], 0, 1⟩ =
      .ok ⟨[108, 0, 0, 1, 0, 0, 0, 0, 0, 0, 0, 0, 0, 0, 0, 0], [], 2⟩
        ⟨[], [], 0, 2⟩ [] ∧
    (2 : Nat) ≠ 1 :=
  ⟨by rfl, by rfl, by decide⟩

/-- C8 amended: receive sequence numbers are assigned once per COMPLETED
message, successful or not: a successful `try_receive_message` returns a
message carrying `prev_seq + 1` and stores that back, an erroring one
either leaves `prev_seq` untouched (failure before the message's bytes
are complete) or — when the bytes completed but the parse failed — has
likewise advanced `prev_seq` by exactly one (buffer taken, cursor reset),
consuming that number.  The successful sequence numbers are therefore
strictly increasing, and they are gap-free from 1 exactly when no
completed message fails to parse: any run of all-successful receives from
a fresh connection is numbered `1, 2, ..., n` in order. -/
theorem C8_receive_seq_increments_per_completed_message (host : Endian) :
    (∀ chunks s m s' rest,
      tryReceiveMessage host chunks s = .ok m s' rest →
        m.seq = s.prev_seq + 1 ∧ s'.prev_seq = s.prev_seq + 1) ∧
    (∀ chunks s e s' rest,
      tryReceiveMessage host chunks s = .err e s' rest →
        s'.prev_seq = s.prev_seq ∨
          (s'.prev_seq = s.prev_seq + 1 ∧ s'.buffer = [] ∧ s'.pos = 0)) ∧
    (∀ raw scripts msgs sf,
      runReceives host scripts (InBound.new raw) = some (msgs, sf) →
        msgs.map Message.seq = List.range' 1 msgs.length) := by
  refine ⟨fun chunks s m s' rest h =>
    tryReceiveMessage_ok_seq host chunks s m s' rest h,
    fun chunks s e s' rest h =>
      tryReceiveMessage_err_seq host chunks s e s' rest h,
    fun raw scripts msgs sf h => ?_⟩
  simpa [InBound.new] using runReceives_seqs host scripts _ msgs sf h

/-- C8 witness: a run of two successfully received 16-byte messages is
numbered 1, 2; and the failed-parse receive of the counterexample indeed
lands in the consumed-a-number disjunct. -/
theorem C8_receive_seq_increments_per_completed_message_witness :
    ([(⟨[108, 0, 0, 1, 0, 0, 0, 0, 0, 0, 0, 0, 0, 0, 0, 0], [], 1⟩ :
        Message),
      ⟨[108, 0, 0, 1, 0, 0, 0, 0, 0, 0, 0, 0, 0, 0, 0, 0], [], 2⟩].map
        Message.seq = List.range' 1 2) ∧
    ((⟨[], [], 0, 1⟩ : InBound).prev_seq = (InBound.new []).prev_seq ∨
      ((⟨[], [], 0, 1⟩ : InBound).prev_seq = (InBound.new []).prev_seq + 1 ∧
        (⟨[], [], 0, 1⟩ : InBound).buffer = [] ∧
        (⟨[], [], 0, 1⟩ : InBound).pos = 0)) :=
  ⟨(C8_receive_seq_increments_per_completed_message .little).2.2 []
      [[⟨[108, 0, 0, 1, 0, 0, 0, 0, 0, 0, 0, 0, 0, 0, 0, 0], []⟩],
        [⟨[108, 0, 0, 1, 0, 0, 0, 0, 0, 0, 0, 0, 0, 0, 0, 0], []⟩]]
      [⟨[108, 0, 0, 1, 0, 0, 0, 0, 0, 0, 0, 0, 0, 0, 0, 0], [], 1⟩,
        ⟨[108, 0, 0, 1, 0, 0, 0, 0, 0, 0, 0, 0, 0, 0, 0, 0], [], 2⟩]
      ⟨[], [], 0, 2⟩ (by rfl),
    (C8_receive_seq_increments_per_completed_message .little).2.1
      [⟨[108, 1, 0, 1, 0, 0, 0, 0, 0, 0, 0, 0, 0, 0, 0, 0], []⟩]
      (InBound.new []) .missingField ⟨[], [], 0, 1⟩ [] (by rfl)⟩

/-- C4: once the 16-byte preamble is in the buffer and parses, the total
message length is computed as `total = 16 + fields_len +
pad8(16 + fields_len) + body_len` with `pad8(n) = (8 − n mod 8) mod 8`,
and `try_receive_message` returns `ExcessData` exactly when that total
exceeds `MAX_MESSAGE_SIZE` = 128 MiB = 134217728 bytes — a total of
exactly 128 MiB is never rejected with `ExcessData`, one byte more
always is. -/
theorem C4_excess_data_iff_total_over_max (host : Endian)
    (chunks : List Chunk) (s : InBound) (ph : PrimaryHeader) (fl : Nat)
    (hpos : MIN_MESSAGE_SIZE ≤ s.pos)
    (hread : PrimaryHeader.read host s.buffer = .ok (ph, fl)) :
    ((∃ s' rest, tryReceiveMessage host chunks s = .err .excessData s' rest)
      ↔ MAX_MESSAGE_SIZE <
        MIN_MESSAGE_SIZE + fl +
          padding_for_8_bytes (MIN_MESSAGE_SIZE + fl) + ph.body_len) ∧
    MAX_MESSAGE_SIZE = 134217728 ∧
    (∀ n, padding_for_8_bytes n = (8 - n % 8) % 8) := by
  refine ⟨?_, by decide, fun n => rfl⟩
  have hnot : ¬ s.pos < MIN_MESSAGE_SIZE := by omega
  have hpre := recvPreamble_done chunks s hnot
  simp only [tryReceiveMessage, if_neg hnot, hpre, hread]
  by_cases hmax : MIN_MESSAGE_SIZE + fl +
      padding_for_8_bytes (MIN_MESSAGE_SIZE + fl) + ph.body_len >
        MAX_MESSAGE_SIZE
  · simp [hmax]
  · rw [if_neg hmax]
    simp only [gt_iff_lt, not_lt] at hmax
    constructor
    · rintro ⟨s', rest', hcontra⟩
      exfalso
      split at hcontra
      · rename_i r hr
        obtain ⟨s₄, rest₄, rfl⟩ := recvRest_error _ _ _ hr
        simp at hcontra
      · rename_i s₄ rest₄ hrest
        have hlen : s₄.buffer.length ≤ MAX_MESSAGE_SIZE := by
          rw [recvRest_ok_buffer_length _ _ _ _ hrest]
          simp only [length_resize]
          omega
        split at hcontra
        · rename_i e he
          simp only [Recv.err.injEq] at hcontra
          obtain ⟨rfl, -, -⟩ := hcontra
          have := from_raw_parts_excess _ _ _ _ he
          omega
        · simp at hcontra
    · intro hc
      exact absurd hc (by omega)

/-- C4 witness: with `fields_len = 0` and `body_len = 134217712` the total
is exactly 128 MiB and the receive is not rejected with `ExcessData`; with
`body_len = 134217713` (one byte more) it is. -/
theorem C4_excess_data_iff_total_over_max_witness :
    ¬ (∃ s' rest, tryReceiveMessage .little []
        ⟨[108, 1, 0, 1, 240, 255, 255, 7, 0, 0, 0, 0, 0, 0, 0, 0], [], 16, 0⟩
        = .err .excessData s' rest) ∧
    (∃ s' rest, tryReceiveMessage .little []
        ⟨[108, 1, 0, 1, 241, 255, 255, 7, 0, 0, 0, 0, 0, 0, 0, 0], [], 16, 0⟩
      = .err .excessData s' rest) := by
  constructor
  · intro hcontra
    have := (C4_excess_data_iff_total_over_max .little []
      ⟨[108, 1, 0, 1, 240, 255, 255, 7, 0, 0, 0, 0, 0, 0, 0, 0], [], 16, 0⟩
      ⟨.little, .methodCall, 0, 1, 134217712, some 0⟩ 0
      (by decide) (by decide)).1.mp hcontra
    revert this
    decide
  · exact (C4_excess_data_iff_total_over_max .little []
      ⟨[108, 1, 0, 1, 241, 255, 255, 7, 0, 0, 0, 0, 0, 0, 0, 0], [], 16, 0⟩
      ⟨.little, .methodCall, 0, 1, 134217713, some 0⟩ 0
      (by decide) (by decide)).1.mpr (by decide)

/-- C2: the claim says any 0-byte `recvmsg` (EOF) before the complete
message is received makes `try_receive_message` return `UnexpectedEof` —
"whether before the 16-byte preamble is complete or while reading the
remaining header fields and body".  The first half is true: the preamble
loop checks `len == 0` (first two conjuncts: EOF at byte 0 and EOF after 8
bytes both return the `UnexpectedEof` I/O error).  The second half is
FALSE on this code: the body-read loop (connection.rs:200-217) has no
`read == 0` check, so after the preamble of a 24-byte message arrives and
the peer hits EOF, every further 0-byte read is consumed without any
progress and without any error — for EVERY number `k` of 0-byte reads the
call is still not past `pos = 16` and no `UnexpectedEof` is ever produced
(the loop busy-polls forever). -/
theorem C2_eof_unexpected_eof_only_in_preamble_loop :
    tryReceiveMessage .little [⟨[], []⟩] (InBound.new []) =
      .err (.inputOutput .unexpectedEof) ⟨List.replicate 16 0, [], 0, 0⟩ [] ∧
    tryReceiveMessage .little [⟨[108, 1, 0, 1, 8, 0, 0, 0], []⟩, ⟨[], []⟩]
        (InBound.new []) =
      .err (.inputOutput .unexpectedEof)
        ⟨[108, 1, 0, 1, 8, 0, 0, 0, 0, 0, 0, 0, 0, 0, 0, 0], [], 8, 0⟩ [] ∧
    ∀ k, tryReceiveMessage .little
        (⟨[108, 1, 0, 1, 8, 0, 0, 0, 0, 0, 0, 0, 0, 0, 0, 0], []⟩ ::
          List.replicate k ⟨[], []⟩) (InBound.new []) =
      .pending ⟨[108, 1, 0, 1, 8, 0, 0, 0, 0, 0, 0, 0, 0, 0, 0, 0,
        0, 0, 0, 0, 0, 0, 0, 0], [], 16, 0⟩ [] := by
  refine ⟨by rfl, by rfl, fun k => ?_⟩
  have h0 : resize [] MIN_MESSAGE_SIZE = List.replicate 16 0 := by decide
  have hlen : recvLen (List.replicate 16 0) 0
      [108, 1, 0, 1, 8, 0, 0, 0, 0, 0, 0, 0, 0, 0, 0, 0] = 16 := by decide
  have hwrite : writeAt (List.replicate 16 0) 0
      [108, 1, 0, 1, 8, 0, 0, 0, 0, 0, 0, 0, 0, 0, 0, 0] =
      [108, 1, 0, 1, 8, 0, 0, 0, 0, 0, 0, 0, 0, 0, 0, 0] := by decide
  have h1 : recvPreamble
      (⟨[108, 1, 0, 1, 8, 0, 0, 0, 0, 0, 0, 0, 0, 0, 0, 0], []⟩ ::
        List.replicate k ⟨[], []⟩)
      (⟨List.replicate 16 0, [], 0, 0⟩ : InBound) =
      .ok (⟨[108, 1, 0, 1, 8, 0, 0, 0, 0, 0, 0, 0, 0, 0, 0, 0], [], 16, 0⟩,
        List.replicate k ⟨[], []⟩) := by
    rw [recvPreamble.eq_def]
    norm_num [MIN_MESSAGE_SIZE, PRIMARY_HEADER_SIZE, hlen, hwrite]
    exact recvPreamble_done _ _ (by decide)
  have h2 : PrimaryHeader.read .little
      [108, 1, 0, 1, 8, 0, 0, 0, 0, 0, 0, 0, 0, 0, 0, 0] =
      .ok (⟨.little, .methodCall, 0, 1, 8, some 0⟩, 0) := by decide
  have h3 : resize [108, 1, 0, 1, 8, 0, 0, 0, 0, 0, 0, 0, 0, 0, 0, 0] 24 =
      [108, 1, 0, 1, 8, 0, 0, 0, 0, 0, 0, 0, 0, 0, 0, 0,
        0, 0, 0, 0, 0, 0, 0, 0] := by decide
  have h4 := recvRest_eof_spins k
      (⟨[108, 1, 0, 1, 8, 0, 0, 0, 0, 0, 0, 0, 0, 0, 0, 0,
        0, 0, 0, 0, 0, 0, 0, 0], [], 16, 0⟩ : InBound) (by decide)
  simp only [tryReceiveMessage, InBound.new, List.length_nil, h0]
  norm_num [MIN_MESSAGE_SIZE, PRIMARY_HEADER_SIZE]
  rw [h1]
  norm_num [h2, MAX_MESSAGE_SIZE, padding_for_8_bytes]
  rw [h3, h4]

/-- C5: when a message is written out, its file descriptors go to
`sendmsg` only on the very first write of that message.  Formally, for
`try_flush`: (a) every `sendmsg` call for the message at queue index `i`
passes that message's own fds if its intra-message cursor is 0 and the
empty list otherwise — so no call ever carries another message's fds, in
particular never those of message `n` on a write of message `n + 1`; and
(b) as long as every accepted write moves at least one byte, the cursors
of the calls for any one message strictly increase, so at most the first
call for each message is at cursor 0 and every subsequent partial write
passes the empty list.  (c) and (d) state the same two facts for the
socket-level `WriteHalf::send_message` loop. -/
theorem C5_fds_only_on_first_write (script : List SendRes) (ob : OutBound)
    (m : OutMsg) (hready : ∀ n, SendRes.ready n ∈ script → 1 ≤ n) :
    (∀ i p f, FlushEv.sent i p f ∈ (tryFlush script ob).1 →
      f = if p = 0 then (ob.msgs.getD i ⟨[], []⟩).fds else []) ∧
    (∀ i, (sentPos (tryFlush script ob).1 i).Pairwise (· < ·)) ∧
    (∀ p f, (p, f) ∈ (sendMessage script m).1 →
      f = if p = 0 then m.fds else []) ∧
    ((sendMessage script m).1.map Prod.fst).Pairwise (· < ·) := by
  refine ⟨fun i p f h => ?_, fun i => ?_, fun p f h => ?_, ?_⟩
  · have := (tryFlushAux_sent_spec script 0 ob.pos ob.msgs i p f h).2
    simpa using this
  · exact tryFlushAux_sentPos_pairwise script 0 ob.pos ob.msgs hready i
  · exact (sendMessageAux_spec script m 0 p f h).2
  · exact sendMessageAux_pairwise script m 0 hready

/-- C5 witness: a 2-byte message with one fd flushed in two 1-byte writes;
the first write (cursor 0) carries the fd, the second carries none, and
the cursors per message strictly increase; same for `send_message`. -/
theorem C5_fds_only_on_first_write_witness :
    (∀ i p f, FlushEv.sent i p f ∈
        (tryFlush [.ready 1, .ready 1] ⟨0, [⟨[7, 8], [5]⟩]⟩).1 →
      f = if p = 0 then (([⟨[7, 8], [5]⟩] : List OutMsg).getD i
        ⟨[], []⟩).fds else []) ∧
    (∀ i, (sentPos
      (tryFlush [.ready 1, .ready 1] ⟨0, [⟨[7, 8], [5]⟩]⟩).1 i).Pairwise
        (· < ·)) ∧
    (∀ p f, (p, f) ∈ (sendMessage [.ready 1, .ready 1] ⟨[7, 8], [5]⟩).1 →
      f = if p = 0 then [5] else []) ∧
    ((sendMessage [.ready 1, .ready 1] ⟨[7, 8], [5]⟩).1.map
      Prod.fst).Pairwise (· < ·) :=
  C5_fds_only_on_first_write [.ready 1, .ready 1] ⟨0, [⟨[7, 8], [5]⟩]⟩
    ⟨[7, 8], [5]⟩ (by intro n hn; simp at hn; omega)

/-- C6: `try_flush` pops the head message only once its cursor equals the
message's full byte length, i.e. after every byte was accepted by
`sendmsg` (given the entry cursor does not overshoot the head); on a
write returning pending it yields without popping — the queue it leaves
is a non-empty suffix of the entry queue whose head is the partially sent
message with the cursor strictly inside it; and it returns
`Ready(Ok(()))` only with the queue fully drained, and exactly then the
`out_queue_ready` event is notified. -/
theorem C6_pop_only_complete_pending_preserves_notify_on_drain
    (script : List SendRes) (ob : OutBound)
    (hpos : ∀ m0, ob.msgs.head? = some m0 → ob.pos ≤ m0.bytes.length) :
    (∀ i p l, FlushEv.popped i p l ∈ (tryFlush script ob).1 → p = l) ∧
    (∀ ob2, (tryFlush script ob).2 = .pending ob2 →
      (∃ k, ob2.msgs = ob.msgs.drop k) ∧ ob2.msgs ≠ [] ∧
        ob2.pos < (ob2.msgs.headD ⟨[], []⟩).bytes.length) ∧
    (∀ ob2 ntf, (tryFlush script ob).2 = .flushed ob2 ntf →
      ob2.msgs = [] ∧ ntf = true) :=
  ⟨tryFlushAux_popped script 0 ob.pos ob.msgs hpos,
    tryFlushAux_pending script 0 ob.pos ob.msgs,
    tryFlushAux_flushed script 0 ob.pos ob.msgs⟩

/-- C6 witness: the same 2-byte message flushed to completion (popped at
cursor 2 = its length, queue drained, event notified), and flushed
against a pending socket (head kept, cursor still inside). -/
theorem C6_pop_only_complete_witness :
    (∀ i p l, FlushEv.popped i p l ∈
        (tryFlush [.ready 1, .ready 1] ⟨0, [⟨[7, 8], [5]⟩]⟩).1 → p = l) ∧
    (∀ ob2 ntf, (tryFlush [.ready 1, .ready 1] ⟨0, [⟨[7, 8], [5]⟩]⟩).2 =
        .flushed ob2 ntf → ob2.msgs = [] ∧ ntf = true) ∧
    (∀ ob2, (tryFlush [.pend] ⟨1, [⟨[7, 8], [5]⟩]⟩).2 = .pending ob2 →
      (∃ k, ob2.msgs = ([⟨[7, 8], [5]⟩] : List OutMsg).drop k) ∧
        ob2.msgs ≠ [] ∧
        ob2.pos < (ob2.msgs.headD ⟨[], []⟩).bytes.length) :=
  ⟨(C6_pop_only_complete_pending_preserves_notify_on_drain
      [.ready 1, .ready 1] ⟨0, [⟨[7, 8], [5]⟩]⟩
      (fun m0 _ => Nat.zero_le _)).1,
    (C6_pop_only_complete_pending_preserves_notify_on_drain
      [.ready 1, .ready 1] ⟨0, [⟨[7, 8], [5]⟩]⟩
      (fun m0 _ => Nat.zero_le _)).2.2,
    (C6_pop_only_complete_pending_preserves_notify_on_drain
      [.pend] ⟨1, [⟨[7, 8], [5]⟩]⟩
      (by intro m0 hm0; simp at hm0; subst hm0; decide)).2.1⟩

end Zbus
